import Mathlib

/-!
Verification of the SecureIoT-VIF serial log verification tooling
(tests/test_community_features.py).

Shallow embedding conventions:
* Python `str` is modelled as `List Char`.
* Raw serial data (`bytes`) is modelled as `List Nat`, each entry a byte.
* `data.decode('utf-8', errors='ignore')` is modelled by an incremental
  UTF-8 decoder that drops invalid subsequences (`utf8DecodeStr`).
* The poll loop of `read_serial_until_pattern` consumes a schedule of
  per-iteration available chunks; an empty chunk models `in_waiting == 0`.
  The deadline is modelled either by the finiteness of the schedule
  (`read_serial_until_pattern`) or by an explicit clock
  (`read_serial_with_clock`).
* A regular-expression search `re.search(pattern, s, re.MULTILINE) is not
  None` is modelled as an arbitrary boolean predicate `P : List Char → Bool`
  on the buffer; literal patterns are instantiated with substring search
  (`isSubstr`), and the sensor-reading regex is implemented concretely
  (`searchTempHum`).
-/

/-- State of the incremental UTF-8 decoder: `start` at a character boundary,
or `need k acc lo hi` in the middle of a multi-byte sequence where `k` more
continuation bytes are expected, `acc` is the accumulated code point value and
the next byte must lie in `[lo, hi]`.  This models CPython's UTF-8 decoder
with `errors='ignore'`, which skips maximal invalid subparts. -/
inductive Utf8State where
  | start : Utf8State
  | need : Nat → Nat → Nat → Nat → Utf8State
deriving DecidableEq

/-- Dispatch on one byte at a character boundary: ASCII is emitted directly,
valid lead bytes open a multi-byte sequence (with the constrained range for
the next byte ruling out overlong forms, surrogates and values beyond
U+10FFFF), and invalid bytes (lone continuations, 0xC0, 0xC1, 0xF5..0xFF) are
dropped. -/
def utf8Dispatch (b : Nat) : List Char × Utf8State :=
  if b < 0x80 then ([Char.ofNat b], Utf8State.start)
  else if b < 0xC2 then ([], Utf8State.start)
  else if b < 0xE0 then ([], Utf8State.need 1 (b - 0xC0) 0x80 0xBF)
  else if b = 0xE0 then ([], Utf8State.need 2 0 0xA0 0xBF)
  else if b = 0xED then ([], Utf8State.need 2 0xD 0x80 0x9F)
  else if b < 0xF0 then ([], Utf8State.need 2 (b - 0xE0) 0x80 0xBF)
  else if b = 0xF0 then ([], Utf8State.need 3 0 0x90 0xBF)
  else if b < 0xF4 then ([], Utf8State.need 3 (b - 0xF0) 0x80 0xBF)
  else if b = 0xF4 then ([], Utf8State.need 3 4 0x80 0x8F)
  else ([], Utf8State.start)

/-- One step of the UTF-8 decoder.  An out-of-range byte in the middle of a
sequence aborts the pending sequence (it is dropped, as `errors='ignore'`
does) and the byte is reprocessed at a character boundary. -/
def utf8Step (st : Utf8State) (b : Nat) : List Char × Utf8State :=
  match st with
  | Utf8State.start => utf8Dispatch b
  | Utf8State.need k acc lo hi =>
    if lo ≤ b ∧ b ≤ hi then
      if k = 1 then ([Char.ofNat (acc * 64 + (b - 0x80))], Utf8State.start)
      else ([], Utf8State.need (k - 1) (acc * 64 + (b - 0x80)) 0x80 0xBF)
    else utf8Dispatch b

/-- Run the UTF-8 decoder from a given state over a byte list.  A sequence
left incomplete at the end of the input is dropped, exactly as
`bytes.decode('utf-8', errors='ignore')` does on a truncated trailing
sequence. -/
def utf8DecodeFrom (st : Utf8State) : List Nat → List Char
  | [] => []
  | b :: rest =>
    match utf8Step st b with
    | (cs, st') => cs ++ utf8DecodeFrom st' rest

/-- Model of `data.decode('utf-8', errors='ignore')`: total permissive
decoding of one chunk. -/
def utf8DecodeStr (l : List Nat) : List Char :=
  utf8DecodeFrom Utf8State.start l

/-- Model of the UTF-8 encoder, used to build concrete byte streams for the
embedded functions. -/
def utf8EncodeChar (c : Char) : List Nat :=
  if c.toNat < 0x80 then [c.toNat]
  else if c.toNat < 0x800 then [0xC0 + c.toNat / 64, 0x80 + c.toNat % 64]
  else if c.toNat < 0x10000 then
    [0xE0 + c.toNat / 4096, 0x80 + (c.toNat / 64) % 64, 0x80 + c.toNat % 64]
  else
    [0xF0 + c.toNat / 262144, 0x80 + (c.toNat / 4096) % 64,
     0x80 + (c.toNat / 64) % 64, 0x80 + c.toNat % 64]

/-- UTF-8 encoding of a whole string. -/
def utf8Encode (s : String) : List Nat :=
  (s.toList.map utf8EncodeChar).flatten

/-- Decoded concatenation of a list of chunks: each chunk is decoded
independently (as each `read()` result is decoded independently in the
source) and the results are concatenated into the rolling buffer text. -/
def decodeConcat (chunks : List (List Nat)) : List Char :=
  (chunks.map utf8DecodeStr).flatten

/-- Model of `buffer += data.decode('utf-8', errors='ignore')`. -/
def decodeAppend (buf : List Char) (chunk : List Nat) : List Char :=
  buf ++ utf8DecodeStr chunk

/-- Boolean test that `n` is a prefix of `h` (used to implement Python's
substring operator). -/
def isPrefixList : List Char → List Char → Bool
  | [], _ => true
  | _ :: _, [] => false
  | a :: as, b :: bs => if a = b then isPrefixList as bs else false

/-- Model of Python's `needle in hay` on strings: `needle` occurs as a
contiguous substring of `hay`. -/
def isSubstr (needle : List Char) : List Char → Bool
  | [] => isPrefixList needle []
  | c :: t => isPrefixList needle (c :: t) || isSubstr needle t

/-- Model of Python's `str.lower()` (ASCII case folding, which is all the
verified checks rely on). -/
def pyLower (l : List Char) : List Char :=
  l.map Char.toLower

/-- Split a text into its lines (separator `'\n'`), used by the spec-side
same-line qualifier semantics. -/
def splitLines : List Char → List (List Char)
  | [] => [[]]
  | c :: rest =>
    if c = '\n' then [] :: splitLines rest
    else
      match splitLines rest with
      | [] => [[c]]
      | l :: ls => (c :: l) :: ls

/-- The poll loop of `read_serial_until_pattern`.  Each element of the
schedule is the data available at one iteration of the `while` loop; an empty
chunk models `self.ser.in_waiting == 0`, in which case nothing is read and no
match is attempted.  A nonempty chunk is read, decoded and appended, and the
pattern is then searched in the entire accumulated buffer; on a match the
buffer is returned at once.  When the schedule is exhausted (deadline
elapsed) the accumulated buffer is returned. -/
def readLoop (P : List Char → Bool) (buf : List Char) : List (List Nat) → List Char
  | [] => buf
  | c :: rest =>
    if c.isEmpty then readLoop P buf rest
    else
      if P (buf ++ utf8DecodeStr c) then buf ++ utf8DecodeStr c
      else readLoop P (buf ++ utf8DecodeStr c) rest

/-- Model of `read_serial_until_pattern(pattern, timeout)`: run the poll loop
with an initially empty buffer over the schedule of chunks arriving before
the deadline.  `P` models `re.search(pattern, buffer, re.MULTILINE) is not
None`. -/
def read_serial_until_pattern (P : List Char → Bool) (chunks : List (List Nat)) : List Char :=
  readLoop P [] chunks

/-- Model of `read_serial_until_pattern` with an explicit clock: `clock n` is
the value of `time.time()` at the `n`-th check of the `while` condition
`time.time() - start_time < timeout`, and `avail n` the data available at
that iteration.  The hypothesis states that real time eventually reaches the
deadline; `Nat.find h` is then the first iteration whose deadline check
fails, so exactly the iterations before it can run. -/
def read_serial_with_clock (P : List Char → Bool) (avail : Nat → List Nat)
    (clock : Nat → Nat) (start timeout : Nat)
    (h : ∃ n, timeout ≤ clock n - start) : List Char :=
  read_serial_until_pattern P ((List.range (Nat.find h)).map avail)

/-- A concrete instance of the clock hypothesis of `read_serial_with_clock`:
the identity clock starting at 0 reaches the deadline 3. -/
def clockReachesDeadline : ∃ n, (3 : Nat) ≤ (fun n : Nat => n) n - 0 :=
  ⟨3, by decide⟩

/-- The five `assertIn` substrings of `test_community_boot_sequence`, in
source order. -/
def bootChecks : List (List Char) :=
  ["Démarrage SecureIoT-VIF Community Edition".toList,
   "Crypto de base initialisé".toList,
   "Vérification intégrité initiale réussie".toList,
   "Gestionnaire de capteurs Community initialisé".toList,
   "Community Edition Opérationnel".toList]

/-- Sequential execution of a scenario's `assertIn` checks, with unittest
semantics: a failing assertion raises, so the method stops there and later
assertions are not executed.  The returned list is the executed assertions
together with their recorded results. -/
def runSeqAsserts (checks : List (List Char)) (log : List Char) : List (List Char × Bool) :=
  match checks with
  | [] => []
  | c :: rest =>
    if isSubstr c log then (c, true) :: runSeqAsserts rest log
    else [(c, false)]

/-- Verdict of the boot-sequence scenario: it passes iff no executed
assertion failed. -/
def bootVerdict (log : List Char) : Bool :=
  (runSeqAsserts bootChecks log).all (fun r => r.2)

/-- The Enterprise feature strings scanned by
`test_community_no_enterprise_features`. -/
def enterpriseFeatures : List (List Char) :=
  ["temps réel".toList,
   "Hardware Security Module".toList,
   "TRNG".toList,
   "attestation continue".toList,
   "ML adaptatif".toList,
   "eFuse".toList,
   "Secure Boot v2".toList,
   "Flash Encryption".toList]

/-- The qualifier condition of `test_community_no_enterprise_features`:
`"non disponible" in log_buffer or "Enterprise" in log_buffer or
"pas de" in log_buffer.lower()`.  Note it looks anywhere in the whole
buffer. -/
def qualifierPresent (buf : List Char) : Bool :=
  isSubstr "non disponible".toList buf ||
  isSubstr "Enterprise".toList buf ||
  isSubstr "pas de".toList (pyLower buf)

/-- One iteration of the feature loop in
`test_community_no_enterprise_features`: if the feature string occurs in the
buffer, the qualifier condition must hold (otherwise `assertTrue` fails). -/
def featureCheck (feature buf : List Char) : Bool :=
  !(isSubstr feature buf) || qualifierPresent buf

/-- Overall pass condition of `test_community_no_enterprise_features`. -/
def noEnterpriseFeaturesCheck (buf : List Char) : Bool :=
  enterpriseFeatures.all (fun f => featureCheck f buf)

/-- Follows the spec's words (§4.4 `MustNotContain`), for comparison with the
code's `featureCheck`: the assertion passes iff the pattern is absent, or
every occurrence of the pattern is accompanied on the same line by at least
one allowed qualifier.  For newline-free patterns every occurrence lies
within a single line, so this is: every line containing the pattern also
contains a qualifier. -/
def mustNotContainSameLine (pat : List Char) (quals : List (List Char)) (buf : List Char) : Bool :=
  (splitLines buf).all (fun line => !(isSubstr pat line) || quals.any (fun q => isSubstr q line))

/-- Characters matched by the character class `[\d.-]` of the sensor-reading
regex (ASCII digits, dot and minus). -/
def isFieldChar (c : Char) : Bool :=
  c.isDigit || c = '.' || c = '-'

/-- Match a literal character sequence at the front of the input, returning
the remainder on success. -/
def dropLit : List Char → List Char → Option (List Char)
  | [], l => some l
  | _ :: _, [] => none
  | a :: as, b :: bs => if a = b then dropLit as bs else none

/-- Attempt of the regex `T=([\d.-]+)°C, H=([\d.-]+)%` at one given
position, returning the two captured groups.  The greedy `[\d.-]+` takes the
maximal run of class characters; since neither `°` nor `%` belongs to the
class, backtracking can never make the following literal match, so the
maximal run is the only candidate, as in the engine. -/
def tryTempHumAt (l : List Char) : Option (List Char × List Char) :=
  match dropLit "T=".toList l with
  | none => none
  | some r1 =>
    let g1 := r1.takeWhile isFieldChar
    if g1.isEmpty then none
    else
      match dropLit "°C, H=".toList (r1.drop g1.length) with
      | none => none
      | some r2 =>
        let g2 := r2.takeWhile isFieldChar
        if g2.isEmpty then none
        else
          match dropLit "%".toList (r2.drop g2.length) with
          | none => none
          | some _ => some (g1, g2)

/-- Model of `re.search(r"T=([\d.-]+)°C, H=([\d.-]+)%", sensor_log)`:
leftmost match, scanning the start positions from the left. -/
def searchTempHum : List Char → Option (List Char × List Char)
  | [] => none
  | c :: t =>
    match tryTempHumAt (c :: t) with
    | some r => some r
    | none => searchTempHum t

/-- Value of a digit string (most significant first). -/
def digitsToNat (l : List Char) : Nat :=
  l.foldl (fun a c => a * 10 + (c.toNat - 48)) 0

/-- Model of Python's `float(...)` on the strings producible by the class
`[\d.-]+`, without a leading sign: digits with at most one dot, at least one
digit.  Returns `none` where `float()` raises `ValueError`. -/
def parseFloatCore (l : List Char) : Option ℚ :=
  let ip := l.takeWhile Char.isDigit
  match l.drop ip.length with
  | [] => if ip.isEmpty then none else some (mkRat (digitsToNat ip) 1)
  | '.' :: fr =>
    let fp := fr.takeWhile Char.isDigit
    if (fr.drop fp.length).isEmpty then
      if ip.isEmpty && fp.isEmpty then none
      else
        some (mkRat (digitsToNat ip * 10 ^ fp.length + digitsToNat fp) (10 ^ fp.length))
    else none
  | _ => none

/-- Model of `float(...)`, allowing one leading minus sign. -/
def parseFloat (l : List Char) : Option ℚ :=
  match l with
  | '-' :: r => (parseFloatCore r).map (fun q => -q)
  | _ => parseFloatCore l

/-- Model of the checking part of `test_community_sensor_reading`: the log
must contain `"Données capteur:"` (else the test fails); then the sensor
regex is searched; if it has no match the remaining checks are skipped and
the test passes; otherwise the two extracted values must lie in the DHT22
ranges.  `none` models a `float()` conversion error (a unittest error). -/
def sensorReadingCheck (log : List Char) : Option Bool :=
  if isSubstr "Données capteur:".toList log then
    match searchTempHum log with
    | none => some true
    | some (t, h) =>
      match parseFloat t, parseFloat h with
      | some tv, some hv =>
        some (decide (mkRat (-40) 1 ≤ tv) && decide (tv ≤ mkRat 80 1) &&
              decide (mkRat 0 1 ≤ hv) && decide (hv ≤ mkRat 100 1))
      | _, _ => none
  else some false

/-- Outcome of one test method under the unittest runner. -/
inductive TestOutcome where
  | passed : TestOutcome
  | failed : TestOutcome
  | error : TestOutcome
  | skipped : TestOutcome
deriving DecidableEq

/-- The parts of a unittest `TestResult` that `run_community_tests` and the
summary consume: failures and errors drive success, skips are recorded
separately. -/
structure RunResult where
  failures : Nat
  errors : Nat
  skipped : Nat
deriving DecidableEq

/-- Model of `runner.run(test_suite)`: collect the outcome counts. -/
def runSuite (outcomes : List TestOutcome) : RunResult :=
  { failures := (outcomes.filter (fun o => decide (o = TestOutcome.failed))).length,
    errors := (outcomes.filter (fun o => decide (o = TestOutcome.error))).length,
    skipped := (outcomes.filter (fun o => decide (o = TestOutcome.skipped))).length }

/-- Model of `result.wasSuccessful()`: no failures and no errors; skipped
tests do not count. -/
def wasSuccessful (r : RunResult) : Bool :=
  decide (r.failures = 0) && decide (r.errors = 0)

/-- Model of `run_community_tests()`: run the suite and return whether it was
successful. -/
def run_community_tests (outcomes : List TestOutcome) : Bool :=
  wasSuccessful (runSuite outcomes)

/-- Model of the `__main__` block: `exit(0 if success else 1)`. -/
def mainExitCode (outcomes : List TestOutcome) : Nat :=
  if run_community_tests outcomes then 0 else 1

/-! ## Basic lemmas about the decoder and the buffer -/

theorem utf8DecodeStr_nil : utf8DecodeStr [] = [] := rfl

theorem decodeConcat_nil : decodeConcat [] = [] := rfl

theorem decodeConcat_cons (c : List Nat) (cs : List (List Nat)) :
    decodeConcat (c :: cs) = utf8DecodeStr c ++ decodeConcat cs := rfl

theorem decodeConcat_append (a b : List (List Nat)) :
    decodeConcat (a ++ b) = decodeConcat a ++ decodeConcat b := by
  induction a with
  | nil => simp [decodeConcat_nil]
  | cons c cs ih => simp [decodeConcat_cons, ih]

theorem decodeConcat_length (chunks : List (List Nat)) :
    (decodeConcat chunks).length = (chunks.map (fun c => (utf8DecodeStr c).length)).sum := by
  induction chunks with
  | nil => rfl
  | cons c cs ih => simp [decodeConcat_cons, ih]

theorem utf8DecodeFrom_start_ascii (l : List Nat) (h : ∀ b ∈ l, b < 128) :
    utf8DecodeFrom Utf8State.start l = l.map Char.ofNat := by
  induction l with
  | nil => rfl
  | cons b rest ih =>
    have hb : b < 128 := h b (List.mem_cons_self b rest)
    have hrest : ∀ x ∈ rest, x < 128 := fun x hx => h x (List.mem_cons_of_mem b hx)
    simp [utf8DecodeFrom, utf8Step, utf8Dispatch, hb, ih hrest]

/-! ## Basic lemmas about substring search -/

theorem isPrefixList_iff (n h : List Char) :
    isPrefixList n h = true ↔ ∃ t, h = n ++ t := by
  induction n generalizing h with
  | nil => simp [isPrefixList]
  | cons a as ih =>
    cases h with
    | nil =>
      constructor
      · intro hfalse; cases hfalse
      · rintro ⟨t, ht⟩
        have := congrArg List.length ht
        simp [List.length_append] at this
    | cons b bs =>
      by_cases hab : a = b
      · subst hab
        rw [show isPrefixList (a :: as) (a :: bs) = isPrefixList as bs from by
          simp [isPrefixList]]
        rw [ih bs]
        constructor
        · rintro ⟨t, rfl⟩
          exact ⟨t, rfl⟩
        · rintro ⟨t, ht⟩
          rw [List.cons_append] at ht
          injection ht with h1 h2
          exact ⟨t, h2⟩
      · constructor
        · intro hp
          exfalso
          simp [isPrefixList, hab] at hp
        · rintro ⟨t, ht⟩
          rw [List.cons_append] at ht
          injection ht with h1 h2
          exact absurd h1.symm hab

theorem isSubstr_iff (n h : List Char) :
    isSubstr n h = true ↔ ∃ p q, h = p ++ n ++ q := by
  induction h with
  | nil =>
    cases n with
    | nil =>
      constructor
      · intro _; exact ⟨[], [], rfl⟩
      · intro _; rfl
    | cons a as =>
      constructor
      · intro hfalse; cases hfalse
      · rintro ⟨p, q, hpq⟩
        have := congrArg List.length hpq
        simp [List.length_append] at this
        omega
  | cons c t ih =>
    simp only [isSubstr, Bool.or_eq_true, ih, isPrefixList_iff]
    constructor
    · rintro (⟨q, hq⟩ | ⟨p, q, hpq⟩)
      · exact ⟨[], q, by simpa using hq⟩
      · exact ⟨c :: p, q, by simp [hpq]⟩
    · rintro ⟨p, q, hpq⟩
      cases p with
      | nil => exact Or.inl ⟨q, by simpa using hpq⟩
      | cons x xs =>
        rw [List.cons_append] at hpq
        injection hpq with h1 h2
        exact Or.inr ⟨xs, q, h2⟩

/-! ## Unfolding lemmas for the poll loop -/

theorem readLoop_nil (P : List Char → Bool) (buf : List Char) :
    readLoop P buf [] = buf := rfl

theorem readLoop_cons_empty (P : List Char → Bool) (buf : List Char)
    (rest : List (List Nat)) :
    readLoop P buf ([] :: rest) = readLoop P buf rest := rfl

theorem readLoop_cons_data (P : List Char → Bool) (buf : List Char) (b : Nat)
    (bs : List Nat) (rest : List (List Nat)) :
    readLoop P buf ((b :: bs) :: rest) =
      (if P (buf ++ utf8DecodeStr (b :: bs)) then buf ++ utf8DecodeStr (b :: bs)
       else readLoop P (buf ++ utf8DecodeStr (b :: bs)) rest) := rfl

/-- The poll loop always returns the accumulated buffer after some prefix of
the schedule: the decoded concatenation of the first `k` chunks. -/
theorem readLoop_take (chunks : List (List Nat)) (P : List Char → Bool) (buf : List Char) :
    ∃ k, k ≤ chunks.length ∧ readLoop P buf chunks = buf ++ decodeConcat (chunks.take k) := by
  induction chunks generalizing buf with
  | nil => exact ⟨0, by simp [readLoop_nil, decodeConcat_nil]⟩
  | cons c rest ih =>
    cases c with
    | nil =>
      obtain ⟨k, hk, he⟩ := ih buf
      refine ⟨k + 1, by simpa using hk, ?_⟩
      rw [readLoop_cons_empty, he]
      simp [List.take_succ_cons, decodeConcat_cons, utf8DecodeStr_nil]
    | cons b bs =>
      rw [readLoop_cons_data]
      by_cases hP : P (buf ++ utf8DecodeStr (b :: bs)) = true
      · refine ⟨1, by simp, ?_⟩
        rw [if_pos hP]
        simp [List.take_succ_cons, decodeConcat_cons, decodeConcat_nil]
      · obtain ⟨k, hk, he⟩ := ih (buf ++ utf8DecodeStr (b :: bs))
        refine ⟨k + 1, by simpa using hk, ?_⟩
        rw [if_neg hP, he]
        simp [List.take_succ_cons, decodeConcat_cons, List.append_assoc]

/-- If the pattern holds at no point of the accumulation, the poll loop runs
to the end of the schedule and returns the full accumulated buffer. -/
theorem readLoop_no_match (chunks : List (List Nat)) (P : List Char → Bool) (buf : List Char)
    (h : ∀ k, k ≤ chunks.length → P (buf ++ decodeConcat (chunks.take k)) = false) :
    readLoop P buf chunks = buf ++ decodeConcat chunks := by
  induction chunks generalizing buf with
  | nil => simp [readLoop_nil, decodeConcat_nil]
  | cons c rest ih =>
    cases c with
    | nil =>
      rw [readLoop_cons_empty]
      have h' : ∀ k, k ≤ rest.length → P (buf ++ decodeConcat (rest.take k)) = false := by
        intro k hk
        have := h (k + 1) (by simpa using hk)
        simpa [List.take_succ_cons, decodeConcat_cons, utf8DecodeStr_nil] using this
      rw [ih buf h']
      simp [decodeConcat_cons, utf8DecodeStr_nil]
    | cons b bs =>
      rw [readLoop_cons_data]
      have h1 : P (buf ++ utf8DecodeStr (b :: bs)) = false := by
        have := h 1 (by simp)
        simpa [List.take_succ_cons, decodeConcat_cons, decodeConcat_nil] using this
      rw [if_neg (by simp [h1])]
      have h' : ∀ k, k ≤ rest.length →
          P (buf ++ utf8DecodeStr (b :: bs) ++ decodeConcat (rest.take k)) = false := by
        intro k hk
        have := h (k + 1) (by simpa using hk)
        simpa [List.take_succ_cons, decodeConcat_cons, List.append_assoc] using this
      rw [ih (buf ++ utf8DecodeStr (b :: bs)) h']
      simp [decodeConcat_cons, List.append_assoc]

/-- If the accumulated buffer matches the pattern right after some nonempty
chunk of the schedule, the loop returns a buffer that matches the pattern
(it returns at the first such point). -/
theorem readLoop_match : ∀ (pre : List (List Nat)) (c : List Nat) (suf : List (List Nat))
    (P : List Char → Bool) (buf : List Char), c ≠ [] →
    P (buf ++ decodeConcat (pre ++ [c])) = true →
    P (readLoop P buf (pre ++ c :: suf)) = true := by
  intro pre
  induction pre with
  | nil =>
    intro c suf P buf hc hP
    cases c with
    | nil => exact absurd rfl hc
    | cons b bs =>
      simp only [List.nil_append] at hP ⊢
      rw [readLoop_cons_data]
      have hP' : P (buf ++ utf8DecodeStr (b :: bs)) = true := by
        simpa [decodeConcat_cons, decodeConcat_nil] using hP
      rw [if_pos hP']
      exact hP'
  | cons p pre' ih =>
    intro c suf P buf hc hP
    cases p with
    | nil =>
      rw [List.cons_append, readLoop_cons_empty]
      refine ih c suf P buf hc ?_
      simpa [decodeConcat_cons, utf8DecodeStr_nil] using hP
    | cons b bs =>
      rw [List.cons_append, readLoop_cons_data]
      by_cases hPb : P (buf ++ utf8DecodeStr (b :: bs)) = true
      · rw [if_pos hPb]
        exact hPb
      · rw [if_neg hPb]
        refine ih c suf P (buf ++ utf8DecodeStr (b :: bs)) hc ?_
        simpa [decodeConcat_cons, List.append_assoc] using hP

/-! ## Lemmas about the scenario assertion sequence and the runner -/

/-- The executed assertions are the longest passing prefix of the scenario's
assertion list, followed by the first failing assertion when one exists. -/
theorem runSeqAsserts_eq (checks : List (List Char)) (log : List Char) :
    runSeqAsserts checks log =
      ((checks.takeWhile (fun c => isSubstr c log)).map (fun c => (c, true))) ++
      (match checks.dropWhile (fun c => isSubstr c log) with
       | [] => []
       | c :: _ => [(c, false)]) := by
  induction checks with
  | nil => rfl
  | cons c rest ih =>
    by_cases hc : isSubstr c log = true
    · simp [runSeqAsserts, hc, List.takeWhile_cons, List.dropWhile_cons, ih]
    · have hc' : isSubstr c log = false := by simpa using hc
      simp [runSeqAsserts, hc', List.takeWhile_cons, List.dropWhile_cons]

/-- The recorded results are all positive exactly when every assertion of the
scenario holds of the log. -/
theorem runSeqAsserts_all (checks : List (List Char)) (log : List Char) :
    ((runSeqAsserts checks log).all fun r => r.2) = checks.all (fun c => isSubstr c log) := by
  induction checks with
  | nil => rfl
  | cons c rest ih =>
    by_cases hc : isSubstr c log = true
    · simp [runSeqAsserts, hc, ih]
    · have hc' : isSubstr c log = false := by simpa using hc
      simp [runSeqAsserts, hc']

/-- The run is reported successful exactly when every test outcome is a pass
or a skip (failures and errors are the only outcomes counted against it). -/
theorem run_success_iff (outcomes : List TestOutcome) :
    run_community_tests outcomes = true ↔
      ∀ o ∈ outcomes, o = TestOutcome.passed ∨ o = TestOutcome.skipped := by
  induction outcomes with
  | nil => simp [run_community_tests, wasSuccessful, runSuite]
  | cons o rest ih =>
    simp only [run_community_tests, wasSuccessful, runSuite, List.filter_cons] at ih ⊢
    cases o <;> simp_all

/-- Pointwise-equal functions map a list to the same result. -/
theorem mapAgree {α β : Type} (l : List α) (f g : α → β) (h : ∀ a ∈ l, f a = g a) :
    l.map f = l.map g := by
  induction l with
  | nil => rfl
  | cons a t ih =>
    rw [List.map_cons, List.map_cons, h a (List.mem_cons_self a t),
      ih (fun x hx => h x (List.mem_cons_of_mem a hx))]

/-- Running the loop on one all-ASCII chunk with a never-matching pattern
retains the whole chunk: the buffer length equals the input length. -/
theorem replicateA_run_length (n : Nat) :
    (read_serial_until_pattern (fun _ => false) [List.replicate n 65]).length = n := by
  have hall : ∀ b ∈ List.replicate n 65, b < 128 := fun b hb => by
    rw [List.eq_of_mem_replicate hb]; omega
  have hrun : read_serial_until_pattern (fun _ => false) [List.replicate n 65] =
      [] ++ decodeConcat [List.replicate n 65] :=
    readLoop_no_match [List.replicate n 65] (fun _ => false) [] (fun k hk => rfl)
  rw [hrun]
  simp [decodeConcat_cons, decodeConcat_nil, utf8DecodeStr, utf8DecodeFrom_start_ascii _ hall]

/-! ## Claims -/

/-- C1 counterexample: with the literal pattern `OK` and a stream whose
decoded text `boot OK` contains a match before the deadline, the function
returns the whole accumulated buffer `boot OK`, not a `Found` value whose
matched text is the minimal substring `OK` satisfying the pattern. -/
theorem c1_counterexample :
    read_serial_until_pattern (fun s => isSubstr "OK".toList s) [utf8Encode "boot OK"] =
      "boot OK".toList ∧
    isSubstr "OK".toList "boot OK".toList = true ∧
    isSubstr "OK".toList "OK".toList = true ∧
    "boot OK".toList ≠ "OK".toList := by
  refine ⟨by decide, by decide, by decide, by decide⟩

/-- C1 (amended): whenever the decoded text comes to contain a match of the
pattern at some poll of the schedule — the match being attempted against the
entire accumulated buffer content, not only the newest chunk, so matches
spanning chunk boundaries are found — `read_serial_until_pattern` returns a
buffer satisfying the pattern, namely the accumulated decoded text of some
prefix of the schedule; the matched substring itself is not returned. -/
theorem c1_match_returns_accumulated_buffer (P : List Char → Bool)
    (pre : List (List Nat)) (c : List Nat) (suf : List (List Nat))
    (hc : c ≠ []) (hP : P (decodeConcat (pre ++ [c])) = true) :
    P (read_serial_until_pattern P (pre ++ c :: suf)) = true ∧
    ∃ k, k ≤ (pre ++ c :: suf).length ∧
      read_serial_until_pattern P (pre ++ c :: suf) =
        decodeConcat ((pre ++ c :: suf).take k) := by
  constructor
  · have := readLoop_match pre c suf P [] hc (by simpa using hP)
    simpa [read_serial_until_pattern] using this
  · obtain ⟨k, hk, he⟩ := readLoop_take (pre ++ c :: suf) P []
    exact ⟨k, hk, by simpa [read_serial_until_pattern] using he⟩

/-- C1 witness: the pattern `OK` split across the chunks `bo` and `ot OK` is
still found, because matching is attempted against the whole buffer. -/
theorem c1_witness :
    isSubstr "OK".toList
      (read_serial_until_pattern (fun s => isSubstr "OK".toList s)
        ([utf8Encode "bo"] ++ utf8Encode "ot OK" :: [])) = true :=
  (c1_match_returns_accumulated_buffer (fun s => isSubstr "OK".toList s)
    [utf8Encode "bo"] (utf8Encode "ot OK") [] (by decide) (by decide)).1

/-- C2 counterexample: the retained buffer obeys no configured maximum at
all: a concrete one-megabyte stream is retained in full, and for every
candidate bound there is a stream whose retained buffer exceeds it, because
nothing is ever evicted. -/
theorem c2_counterexample :
    (read_serial_until_pattern (fun _ => false) [List.replicate 1000000 65]).length =
      1000000 ∧
    ¬ ∃ N : Nat, ∀ chunks : List (List Nat),
      (read_serial_until_pattern (fun _ => false) chunks).length ≤ N := by
  refine ⟨replicateA_run_length 1000000, ?_⟩
  rintro ⟨N, hN⟩
  have := hN [List.replicate (N + 1) 65]
  rw [replicateA_run_length (N + 1)] at this
  omega

/-- C2 (amended): the rolling buffer is unbounded and append-only: there is
no `maxBufferBytes` and no eviction, and as long as no match occurs every
append grows the retained buffer by the full decoded chunk size, so the
final buffer length equals the total decoded input size however much stream
data arrives. -/
theorem c2_buffer_never_evicts (P : List Char → Bool) (chunks : List (List Nat))
    (h : ∀ k, k ≤ chunks.length → P (decodeConcat (chunks.take k)) = false) :
    (read_serial_until_pattern P chunks).length =
      (chunks.map (fun c => (utf8DecodeStr c).length)).sum := by
  have hrun : read_serial_until_pattern P chunks = [] ++ decodeConcat chunks :=
    readLoop_no_match chunks P [] (by intro k hk; simpa using h k hk)
  rw [hrun]
  simpa using decodeConcat_length chunks

/-- C2 witness: two chunks of sizes 3 and 4 leave a buffer of size 7. -/
theorem c2_witness :
    (read_serial_until_pattern (fun s => isSubstr "FIN".toList s)
        [utf8Encode "abc", utf8Encode "defg"]).length =
      ([utf8Encode "abc", utf8Encode "defg"].map (fun c => (utf8DecodeStr c).length)).sum :=
  c2_buffer_never_evicts (fun s => isSubstr "FIN".toList s)
    [utf8Encode "abc", utf8Encode "defg"] (by decide)

/-- C6: for every pattern absent from the decoded stream text at every point
up to the deadline, `read_serial_until_pattern` returns the full accumulated
buffer at deadline expiry — all text decoded and appended up to that moment —
so callers can still assert on partial evidence. -/
theorem c6_timeout_returns_full_buffer (P : List Char → Bool) (chunks : List (List Nat))
    (h : ∀ k, k ≤ chunks.length → P (decodeConcat (chunks.take k)) = false) :
    read_serial_until_pattern P chunks = decodeConcat chunks := by
  have := readLoop_no_match chunks P [] (by intro k hk; simpa using h k hk)
  simpa [read_serial_until_pattern] using this

/-- C6 witness: a pattern that never appears leaves the full decoded stream
as the returned snapshot. -/
theorem c6_witness :
    read_serial_until_pattern (fun s => isSubstr "ERROR".toList s)
        [utf8Encode "boot ok\n", utf8Encode "ready\n"] =
      decodeConcat [utf8Encode "boot ok\n", utf8Encode "ready\n"] :=
  c6_timeout_returns_full_buffer (fun s => isSubstr "ERROR".toList s)
    [utf8Encode "boot ok\n", utf8Encode "ready\n"] (by decide)

/-- C7: the poll loop blocks only up to its explicit deadline: given that
real time eventually reaches `start_time + timeout` (the clock hypothesis),
every executed iteration satisfies the deadline check, the run equals a run
over the finitely many pre-deadline polls, and the result is unchanged if
the data arriving at or after the deadline is changed arbitrarily — covering
streams that never produce data and streams that produce data forever
without a match. -/
theorem c7_deadline_bounds_polling (P : List Char → Bool) (avail avail' : Nat → List Nat)
    (clock : Nat → Nat) (start timeout : Nat) (h : ∃ n, timeout ≤ clock n - start)
    (hagree : ∀ i, clock i - start < timeout → avail i = avail' i) :
    (∀ i < Nat.find h, clock i - start < timeout) ∧
    read_serial_with_clock P avail clock start timeout h =
      read_serial_until_pattern P ((List.range (Nat.find h)).map avail) ∧
    read_serial_with_clock P avail clock start timeout h =
      read_serial_with_clock P avail' clock start timeout h := by
  have hlt : ∀ i < Nat.find h, clock i - start < timeout := by
    intro i hi
    have := Nat.find_min h hi
    omega
  refine ⟨hlt, rfl, ?_⟩
  unfold read_serial_with_clock
  unfold read_serial_until_pattern
  congr 1
  apply mapAgree
  intro i hi
  rw [List.mem_range] at hi
  exact hagree i (hlt i hi)

/-- C10: in both outcomes — pattern found before the deadline or deadline
expired — `read_serial_until_pattern` returns the accumulated buffer string
itself (the decoded concatenation of a prefix of the schedule); the value
carries no tag of which outcome occurred: a run that found its pattern and a
run that timed out can return the very same string. -/
theorem c10_returns_buffer_in_both_outcomes :
    (∀ (P : List Char → Bool) (chunks : List (List Nat)),
      ∃ k, k ≤ chunks.length ∧
        read_serial_until_pattern P chunks = decodeConcat (chunks.take k)) ∧
    read_serial_until_pattern (fun s => isSubstr "OK".toList s) [utf8Encode "OK"] =
      "OK".toList ∧
    read_serial_until_pattern (fun _ => false) [utf8Encode "OK"] = "OK".toList := by
  refine ⟨?_, by decide, by decide⟩
  intro P chunks
  obtain ⟨k, hk, he⟩ := readLoop_take chunks P []
  exact ⟨k, hk, by simpa [read_serial_until_pattern] using he⟩

/-- C10 witness: a concrete timed-out run returns the decoded prefix of its
schedule. -/
theorem c10_witness :
    ∃ k, k ≤ ([utf8Encode "ping"] : List (List Nat)).length ∧
      read_serial_until_pattern (fun _ => false) [utf8Encode "ping"] =
        decodeConcat ([utf8Encode "ping"].take k) :=
  c10_returns_buffer_in_both_outcomes.1 (fun _ => false) [utf8Encode "ping"]

/-- C7 witness: a concrete identity clock with deadline 3 and a constant
stream, where the loop runs exactly the pre-deadline iterations. -/
theorem c7_witness :
    (∀ i < Nat.find clockReachesDeadline, (fun n : Nat => n) i - 0 < 3) ∧
    read_serial_with_clock (fun _ => false) (fun _ => utf8Encode "x") (fun n : Nat => n) 0 3
        clockReachesDeadline =
      read_serial_until_pattern (fun _ => false)
        ((List.range (Nat.find clockReachesDeadline)).map (fun _ => utf8Encode "x")) ∧
    read_serial_with_clock (fun _ => false) (fun _ => utf8Encode "x") (fun n : Nat => n) 0 3
        clockReachesDeadline =
      read_serial_with_clock (fun _ => false) (fun _ => utf8Encode "x") (fun n : Nat => n) 0 3
        clockReachesDeadline :=
  c7_deadline_bounds_polling (fun _ => false) (fun _ => utf8Encode "x")
    (fun _ => utf8Encode "x") (fun n : Nat => n) 0 3 clockReachesDeadline
    (fun _ _ => rfl)

/-- C3 counterexample: in the buffer `TRNG actif\nLicence Enterprise` the
forbidden pattern `TRNG` occurs on a line with no qualifier at all, and the
only qualifier occurrence (`Enterprise`) sits on a different line; the claim
requires the assertion to fail, but the code's check passes, because it
accepts a qualifier found anywhere in the buffer. -/
theorem c3_counterexample :
    featureCheck "TRNG".toList "TRNG actif\nLicence Enterprise".toList = true ∧
    mustNotContainSameLine "TRNG".toList
      ["non disponible".toList, "Enterprise".toList, "pas de".toList]
      "TRNG actif\nLicence Enterprise".toList = false := by
  refine ⟨by decide, by decide⟩

/-- C3 (amended): the code's negative assertion passes iff the pattern is
absent from the buffer, or at least one allowed qualifier occurs anywhere in
the buffer — `non disponible` or `Enterprise` verbatim, or `pas de` in the
lowercased buffer — with no per-occurrence or same-line requirement. -/
theorem c3_qualifier_anywhere (feature buf : List Char) :
    featureCheck feature buf = true ↔
      (¬ ∃ p q, buf = p ++ feature ++ q) ∨
      (∃ p q, buf = p ++ "non disponible".toList ++ q) ∨
      (∃ p q, buf = p ++ "Enterprise".toList ++ q) ∨
      (∃ p q, pyLower buf = p ++ "pas de".toList ++ q) := by
  rw [← isSubstr_iff, ← isSubstr_iff, ← isSubstr_iff, ← isSubstr_iff]
  simp [featureCheck, qualifierPresent, or_assoc]

/-- C3 witness: with the qualifier on the same line as the pattern the check
passes, as both readings agree. -/
theorem c3_witness :
    featureCheck "TRNG".toList "TRNG non disponible".toList = true ↔
      (¬ ∃ p q, "TRNG non disponible".toList = p ++ "TRNG".toList ++ q) ∨
      (∃ p q, "TRNG non disponible".toList = p ++ "non disponible".toList ++ q) ∨
      (∃ p q, "TRNG non disponible".toList = p ++ "Enterprise".toList ++ q) ∨
      (∃ p q, pyLower "TRNG non disponible".toList = p ++ "pas de".toList ++ q) :=
  c3_qualifier_anywhere "TRNG".toList "TRNG non disponible".toList

/-- C4 counterexample: on a log that contains the sensor header but in which
the extraction pattern matches nothing at all, the claim requires the
assertion to fail (`ExtractionFailed`), but the code passes: the `if
reading_match:` guard silently skips every range check. -/
theorem c4_counterexample :
    searchTempHum "Données capteur: rien".toList = none ∧
    sensorReadingCheck "Données capteur: rien".toList = some true := by
  refine ⟨by decide, by decide⟩

/-- C4 (amended): when the sensor pattern does match, the extracted value is
validated inclusively against the range: `T=23.5°C, H=45.0%` extracts `23.5`
and passes, and `T=150.0°C, H=45.0%` (the code's pattern also requires the
humidity field) extracts `150.0` successfully but fails the range check; but
when the pattern matches nothing at all the assertion does not fail — the
range checks are skipped and the test passes, with no `ExtractionFailed`
outcome. -/
theorem c4_range_check_only_when_extracted :
    sensorReadingCheck "Données capteur: T=23.5°C, H=45.0%".toList = some true ∧
    searchTempHum "Données capteur: T=23.5°C, H=45.0%".toList =
      some ("23.5".toList, "45.0".toList) ∧
    sensorReadingCheck "Données capteur: T=150.0°C, H=45.0%".toList = some false ∧
    searchTempHum "Données capteur: T=150.0°C, H=45.0%".toList =
      some ("150.0".toList, "45.0".toList) ∧
    (∀ log : List Char, isSubstr "Données capteur:".toList log = true →
      searchTempHum log = none → sensorReadingCheck log = some true) := by
  refine ⟨by decide, by decide, by decide, by decide, ?_⟩
  intro log h1 h2
  unfold sensorReadingCheck
  rw [if_pos h1, h2]

/-- C4 witness: a header-bearing log without any sensor reading passes. -/
theorem c4_witness :
    sensorReadingCheck "Données capteur: indisponibles".toList = some true :=
  c4_range_check_only_when_extracted.2.2.2.2
    "Données capteur: indisponibles".toList (by decide) (by decide)

/-- C5 counterexample: on an empty log every one of the five boot assertions
fails, yet the scenario records only the first one — the later assertions
are never executed, so a single run does not surface every failing
assertion. -/
theorem c5_counterexample :
    (runSeqAsserts bootChecks []).length = 1 ∧
    bootChecks.length = 5 ∧
    bootChecks.all (fun c => !(isSubstr c [])) = true := by
  refine ⟨by decide, by decide, by decide⟩

/-- C5 (amended): within a scenario the overall verdict is still the
conjunction of all its assertions, but the assertions are executed
sequentially with a short-circuit: the recorded results are the longest
passing prefix followed by the first failing assertion when one exists, and
assertions after the first failure are not executed. -/
theorem c5_short_circuit (log : List Char) :
    (bootVerdict log = true ↔ ∀ c ∈ bootChecks, isSubstr c log = true) ∧
    runSeqAsserts bootChecks log =
      ((bootChecks.takeWhile (fun c => isSubstr c log)).map (fun c => (c, true))) ++
      (match bootChecks.dropWhile (fun c => isSubstr c log) with
       | [] => []
       | c :: _ => [(c, false)]) := by
  constructor
  · rw [bootVerdict, runSeqAsserts_all]
    simp [List.all_eq_true]
  · exact runSeqAsserts_eq bootChecks log

/-- C5 witness: the verdict on the empty log is the conjunction of its
(failing) assertions. -/
theorem c5_witness :
    bootVerdict [] = true ↔ ∀ c ∈ bootChecks, isSubstr c [] = true :=
  (c5_short_circuit []).1

/-- C8: the exit signal is 0 exactly when every non-skipped test passed,
and 1 otherwise; a skipped test never changes the exit signal and is
tallied in its own summary field rather than among the failures. -/
theorem c8_exit_success_iff (outcomes : List TestOutcome) :
    (mainExitCode outcomes = 0 ↔
      ∀ o ∈ outcomes, o = TestOutcome.passed ∨ o = TestOutcome.skipped) ∧
    (mainExitCode outcomes = 0 ∨ mainExitCode outcomes = 1) ∧
    mainExitCode (TestOutcome.skipped :: outcomes) = mainExitCode outcomes ∧
    (runSuite (TestOutcome.skipped :: outcomes)).skipped =
      (runSuite outcomes).skipped + 1 ∧
    (runSuite (TestOutcome.skipped :: outcomes)).failures =
      (runSuite outcomes).failures := by
  have hskip : run_community_tests (TestOutcome.skipped :: outcomes) =
      run_community_tests outcomes := by
    simp [run_community_tests, wasSuccessful, runSuite, List.filter_cons]
  refine ⟨?_, ?_, ?_, ?_, ?_⟩
  · by_cases hs : run_community_tests outcomes = true
    · simp only [mainExitCode, hs, if_true]
      simpa using (run_success_iff outcomes).mp hs
    · have hs' : run_community_tests outcomes = false := by simpa using hs
      simp only [mainExitCode, hs', if_false]
      constructor
      · intro h10; cases h10
      · intro hall
        exact absurd ((run_success_iff outcomes).mpr hall) hs
  · by_cases hs : run_community_tests outcomes = true
    · left; simp [mainExitCode, hs]
    · right; simp [mainExitCode, hs]
  · simp [mainExitCode, hskip]
  · simp [runSuite, List.filter_cons]
  · simp [runSuite, List.filter_cons]

/-- C8 witness: one passed and one skipped test give exit signal 0. -/
theorem c8_witness :
    mainExitCode [TestOutcome.passed, TestOutcome.skipped] = 0 ↔
      ∀ o ∈ [TestOutcome.passed, TestOutcome.skipped],
        o = TestOutcome.passed ∨ o = TestOutcome.skipped :=
  (c8_exit_success_iff [TestOutcome.passed, TestOutcome.skipped]).1

/-- C9: decoding and appending stream bytes is total and permissive:
appending always decodes the chunk and appends the result to the buffer
(there is no failure path); a byte that cannot begin any UTF-8 sequence — a
lone continuation byte, an overlong lead 0xC0/0xC1, or 0xF5..0xFF — is
dropped while the remaining text is still decoded; and an ASCII byte at a
character boundary is decoded faithfully and kept. -/
theorem c9_decode_total_and_permissive :
    (∀ (buf : List Char) (chunk : List Nat),
      decodeAppend buf chunk = buf ++ utf8DecodeStr chunk) ∧
    (∀ (b : Nat) (bs : List Nat), (0x80 ≤ b ∧ b < 0xC2) ∨ 0xF5 ≤ b →
      utf8DecodeStr (b :: bs) = utf8DecodeStr bs) ∧
    (∀ (b : Nat) (bs : List Nat), b < 0x80 →
      utf8DecodeStr (b :: bs) = Char.ofNat b :: utf8DecodeStr bs) := by
  refine ⟨fun _ _ => rfl, ?_, ?_⟩
  · intro b bs hb
    rcases hb with ⟨h1, h2⟩ | h3
    · have hn1 : ¬ b < 0x80 := by omega
      simp [utf8DecodeStr, utf8DecodeFrom, utf8Step, utf8Dispatch, hn1, h2]
    · have hn1 : ¬ b < 0x80 := by omega
      have hn2 : ¬ b < 0xC2 := by omega
      have hn3 : ¬ b < 0xE0 := by omega
      have hn4 : b ≠ 0xE0 := by omega
      have hn5 : b ≠ 0xED := by omega
      have hn6 : ¬ b < 0xF0 := by omega
      have hn7 : b ≠ 0xF0 := by omega
      have hn8 : ¬ b < 0xF4 := by omega
      have hn9 : b ≠ 0xF4 := by omega
      simp [utf8DecodeStr, utf8DecodeFrom, utf8Step, utf8Dispatch,
        hn1, hn2, hn3, hn4, hn5, hn6, hn7, hn8, hn9]
  · intro b bs hb
    simp [utf8DecodeStr, utf8DecodeFrom, utf8Step, utf8Dispatch, hb]

/-- C9 witness: an invalid byte 0xFF is dropped while the surrounding valid
text is decoded and appended. -/
theorem c9_witness :
    utf8DecodeStr (0xFF :: utf8Encode "ok") = utf8DecodeStr (utf8Encode "ok") :=
  c9_decode_total_and_permissive.2.1 0xFF (utf8Encode "ok") (by decide)
